import Mathlib

/-!
Shallow embedding of the decision engine of `src/app.py` (a Flask front-end
around the Azure Content Safety API) and proofs about it.

Python dictionaries are modelled as insertion-ordered association lists;
Python dictionary access `d.get(k, None)` becomes an `Option`, exceptions
become `Except Err`, and machine integers are `Int` (Python integers are
unbounded, so no wrap-around modelling is needed).
-/

namespace AppPy

/-- MediaType enum (src/app.py lines 12-14). -/
inductive MediaType where
  | Text
  | Image
deriving DecidableEq, Repr

/-- Category enum (src/app.py lines 17-21). -/
inductive Category where
  | Hate
  | SelfHarm
  | Sexual
  | Violence
deriving DecidableEq, Repr

/-- Action enum (src/app.py lines 24-26): Accept has value 1, Reject value 2. -/
inductive Action where
  | Accept
  | Reject
deriving DecidableEq, Repr

/-- The numeric value of the Python enum member (`Action.value`). -/
def Action.value : Action → Nat
  | .Accept => 1
  | .Reject => 2

/-- The `.name` attribute of the Python `Category` enum member. -/
def Category.catName : Category → String
  | .Hate => "Hate"
  | .SelfHarm => "SelfHarm"
  | .Sexual => "Sexual"
  | .Violence => "Violence"

/-- A JSON value, as produced by `response.json()` or passed to `json.dumps`. -/
inductive Json where
  | null
  | bool (b : Bool)
  | num (n : Int)
  | str (s : String)
  | arr (elems : List Json)
  | obj (fields : List (String × Json))

/-- Python subscript `j[k]` on a parsed JSON value, as an `Option`:
`none` when `j` is not an object or lacks the key (a KeyError / TypeError). -/
def Json.getKey : Json → String → Option Json
  | .obj fields, k => lookupField k fields
  | _, _ => none
where
  lookupField (k : String) : List (String × Json) → Option Json
    | [] => none
    | (k', v) :: rest => if k' = k then some v else lookupField k rest

/-- The errors the embedded code can raise.  `detectionError` is the
`DetectionError` class (src/app.py lines 30-36); `categoryNotFound` is the
`ValueError("Invalid Category ...")` raised at line 94; `missingCategoryResult`
is the `ValueError("Cannot find detection result ...")` raised at line 102;
`typeError` is the Python TypeError from iterating `None` at line 91 when the
response has no `categoriesAnalysis` key; `keyError` is a failed subscript in
the error branch of `detect` (line 85). -/
inductive Err where
  | detectionError (code message : Json)
  | categoryNotFound (category : Category)
  | missingCategoryResult (category : Category)
  | typeError
  | keyError

/-- The `Decision` class (src/app.py lines 40-43).  `action_by_category` is a
Python dict built by repeated assignment, modelled as an insertion-ordered
association list. -/
structure Decision where
  suggested_action : Action
  action_by_category : List (Category × Action)
deriving DecidableEq, Repr

/-- The `ContentSafety` class state (src/app.py lines 47-51). -/
structure ContentSafety where
  endpoint : String
  subscription_key : String
  api_version : String
deriving DecidableEq, Repr

/-- `ContentSafety.build_url` (src/app.py lines 53-59).  The `else` branch that
raises `ValueError` is unreachable: `MediaType` is a closed two-member enum. -/
def ContentSafety.build_url (self : ContentSafety) (media_type : MediaType) : String :=
  match media_type with
  | .Text => self.endpoint ++ "/contentsafety/text:analyze?api-version=" ++ self.api_version
  | .Image => self.endpoint ++ "/contentsafety/image:analyze?api-version=" ++ self.api_version

/-- `ContentSafety.build_headers` (src/app.py lines 61-65). -/
def ContentSafety.build_headers (self : ContentSafety) : List (String × String) :=
  [("Ocp-Apim-Subscription-Key", self.subscription_key),
   ("Content-Type", "application/json")]

/-- `ContentSafety.build_request_body` (src/app.py lines 67-73).  The method
never reads `self`; the `else` branch raising `ValueError` is unreachable for
the closed `MediaType` enum. -/
def ContentSafety.build_request_body (_self : ContentSafety) (media_type : MediaType)
    (content : String) : Json :=
  match media_type with
  | .Text => .obj [("text", .str content)]
  | .Image => .obj [("image", .obj [("content", .str content)])]

/-- An HTTP response as seen by `detect` after `response.json()`: the status
code and the parsed body. -/
structure HttpResponse where
  status_code : Int
  body : Json

/-- `ContentSafety.detect` (src/app.py lines 75-87).  The outbound
`requests.post` call is the external collaborator; its result is the
`response` argument.  On a non-200 status the code evaluates
`res_content["error"]["code"]` and `res_content["error"]["message"]` and
raises `DetectionError` with them; a failed subscript there is a
KeyError/TypeError instead.  On status 200 the parsed body is returned. -/
def ContentSafety.detect (self : ContentSafety) (media_type : MediaType) (content : String)
    (response : HttpResponse) : Except Err Json :=
  let _url := self.build_url media_type
  let _headers := self.build_headers
  let _payload := self.build_request_body media_type content
  let res_content := response.body
  if response.status_code ≠ 200 then
    match (res_content.getKey "error").bind (fun e => e.getKey "code") with
    | none => .error .keyError
    | some code =>
      match (res_content.getKey "error").bind (fun e => e.getKey "message") with
      | none => .error .keyError
      | some message => .error (.detectionError code message)
  else
    .ok res_content

/-- One element of the `categoriesAnalysis` list of the provider response:
a JSON object whose `category` and `severity` keys may each be absent
(`res.get("category", None)` at line 92, `"severity" not in cate_detect_res`
at line 101). -/
structure AnalysisRecord where
  category : Option String
  severity : Option Int
deriving DecidableEq, Repr

/-- The provider response as consumed by the decision code: the
`categoriesAnalysis` key may be absent (`detect_result.get("categoriesAnalysis",
None)` at line 90). -/
structure DetectResult where
  categoriesAnalysis : Option (List AnalysisRecord)
deriving DecidableEq, Repr

/-- The `for res in category_res` loop of `get_detect_result_by_category`
(src/app.py lines 91-94): return the first record whose `category` field
equals the target category name, else raise `ValueError("Invalid Category")`. -/
def findCategoryRec (c : Category) : List AnalysisRecord → Except Err AnalysisRecord
  | [] => .error (.categoryNotFound c)
  | r :: rest => if r.category = some c.catName then .ok r else findCategoryRec c rest

/-- `ContentSafety.get_detect_result_by_category` (src/app.py lines 89-94).
The Python method never reads `self`.  When the response lacks the
`categoriesAnalysis` key, `category_res` is `None` and the `for` loop raises a
TypeError. -/
def get_detect_result_by_category (c : Category) (d : DetectResult) :
    Except Err AnalysisRecord :=
  match d.categoriesAnalysis with
  | none => .error .typeError
  | some l => findCategoryRec c l

/-- Lines 100-104 of `make_decision`: fetch the analysis record for the
category (propagating its exceptions), raise
`ValueError("Cannot find detection result ...")` when the record lacks a
`severity` key, else return the severity.  The `cate_detect_res is None`
disjunct at line 101 is dead code: `get_detect_result_by_category` either
returns a record or raises. -/
def getSeverity (c : Category) (d : DetectResult) : Except Err Int :=
  match get_detect_result_by_category c d with
  | .error e => .error e
  | .ok r =>
    match r.severity with
    | none => .error (.missingCategoryResult c)
    | some s => .ok s

/-- Python dict assignment `m[k] = v` on an insertion-ordered association
list: update in place when the key is present, append otherwise. -/
def dinsert (k : Category) (v : Action) : List (Category × Action) → List (Category × Action)
  | [] => [(k, v)]
  | (k', v') :: rest => if k' = k then (k, v) :: rest else (k', v') :: dinsert k v rest

/-- Python dict lookup `m.get(k)` on an insertion-ordered association list. -/
def dget (k : Category) : List (Category × Action) → Option Action
  | [] => none
  | (k', v) :: rest => if k' = k then some v else dget k rest

/-- The `for category, threshold in reject_thresholds.items()` loop of
`make_decision` (src/app.py lines 99-108), carrying the `action_result` dict
and `final_action` accumulators. -/
def make_decisionLoop (d : DetectResult) :
    List (Category × Int) → List (Category × Action) → Action → Except Err Decision
  | [], action_result, final_action => .ok ⟨final_action, action_result⟩
  | (category, threshold) :: rest, action_result, final_action =>
    match getSeverity category d with
    | .error e => .error e
    | .ok severity =>
      let action := if threshold ≠ -1 ∧ severity ≥ threshold then Action.Reject else Action.Accept
      make_decisionLoop d rest (dinsert category action action_result)
        (if action.value > final_action.value then action else final_action)

/-- `ContentSafety.make_decision` (src/app.py lines 96-110).  The Python
method never reads `self`.  `reject_thresholds` is a Python dict, modelled as
its insertion-ordered item list (keys pairwise distinct). -/
def make_decision (detection_result : DetectResult)
    (reject_thresholds : List (Category × Int)) : Except Err Decision :=
  make_decisionLoop detection_result reject_thresholds [] .Accept

/-- State-passing form of the `make_decision` method: the body
(src/app.py lines 96-110) reads no attribute of `self`, assigns none, and
touches no global, so the instance state passes through unchanged. -/
def ContentSafety.make_decisionM (self : ContentSafety) (detection_result : DetectResult)
    (reject_thresholds : List (Category × Int)) : Except Err Decision × ContentSafety :=
  (make_decision detection_result reject_thresholds, self)

/-- The severity entry a detection result holds for a category: the
`severity` field of the first matching analysis record, `none` when the
lookup fails in any way. -/
def severityEntry (c : Category) (d : DetectResult) : Option Int :=
  match getSeverity c d with
  | .ok s => some s
  | .error _ => none

/-! ## Helper lemmas -/

theorem dget_dinsert_self (c : Category) (a : Action) (l : List (Category × Action)) :
    dget c (dinsert c a l) = some a := by
  induction l with
  | nil => simp [dinsert, dget]
  | cons p rest ih =>
    obtain ⟨k', v'⟩ := p
    by_cases hk : k' = c
    · simp [dinsert, dget, hk]
    · simp [dinsert, dget, hk, ih]

theorem dget_dinsert_ne (c c' : Category) (a : Action) (l : List (Category × Action))
    (h : c' ≠ c) : dget c (dinsert c' a l) = dget c l := by
  induction l with
  | nil => simp [dinsert, dget, h]
  | cons p rest ih =>
    obtain ⟨k', v'⟩ := p
    by_cases hk : k' = c'
    · subst hk
      simp [dinsert, dget, h]
    · have hcc' : ¬c = c' := fun he => h he.symm
      by_cases hkc : k' = c
      · simp [dinsert, dget, hk, hkc, hcc']
      · simp [dinsert, dget, hk, hkc, hcc', ih]

theorem dinsert_eq_append (c : Category) (a : Action) (l : List (Category × Action))
    (h : ∀ p ∈ l, p.1 ≠ c) : dinsert c a l = l ++ [(c, a)] := by
  induction l with
  | nil => simp [dinsert]
  | cons p rest ih =>
    obtain ⟨k', v'⟩ := p
    have hk : k' ≠ c := h (k', v') (by simp)
    simp [dinsert, hk]
    exact ih fun q hq => h q (by simp [hq])

theorem make_decisionLoop_dget_of_not_mem (d : DetectResult) (ts : List (Category × Int))
    (c : Category) (hc : ∀ p ∈ ts, p.1 ≠ c) :
    ∀ acc fin dec, make_decisionLoop d ts acc fin = .ok dec →
      dget c dec.action_by_category = dget c acc := by
  induction ts with
  | nil =>
    intro acc fin dec h
    simp [make_decisionLoop] at h
    subst h
    rfl
  | cons p rest ih =>
    intro acc fin dec h
    obtain ⟨c', t'⟩ := p
    have hc' : c' ≠ c := hc (c', t') (by simp)
    simp only [make_decisionLoop] at h
    cases hs : getSeverity c' d with
    | error e => rw [hs] at h; exact absurd h (by simp)
    | ok s =>
      rw [hs] at h
      simp only [] at h
      have := ih (fun q hq => hc q (by simp [hq])) _ _ _ h
      rw [this, dget_dinsert_ne _ _ _ _ hc']

theorem make_decisionLoop_cov_ok (d : DetectResult) (ts : List (Category × Int))
    (hcov : ∀ p ∈ ts, ∃ s, getSeverity p.1 d = .ok s) :
    ∀ acc fin, ∃ dec, make_decisionLoop d ts acc fin = .ok dec := by
  induction ts with
  | nil => intro acc fin; exact ⟨⟨fin, acc⟩, rfl⟩
  | cons p rest ih =>
    intro acc fin
    obtain ⟨c', t'⟩ := p
    obtain ⟨s, hs⟩ := hcov (c', t') (by simp)
    obtain ⟨dec, hdec⟩ := ih (fun q hq => hcov q (by simp [hq])) (dinsert c'
      (if t' ≠ -1 ∧ s ≥ t' then Action.Reject else Action.Accept) acc)
      (if (if t' ≠ -1 ∧ s ≥ t' then Action.Reject else Action.Accept).value > fin.value
        then (if t' ≠ -1 ∧ s ≥ t' then Action.Reject else Action.Accept) else fin)
    refine ⟨dec, ?_⟩
    simp only [make_decisionLoop, hs]
    exact hdec

theorem make_decisionLoop_mem_spec (d : DetectResult) (ts : List (Category × Int))
    (hnd : (ts.map Prod.fst).Nodup) (c : Category) (t : Int) (hm : (c, t) ∈ ts) :
    ∀ acc fin dec, make_decisionLoop d ts acc fin = .ok dec →
      ∃ s, getSeverity c d = .ok s ∧
        dget c dec.action_by_category
          = some (if t ≠ -1 ∧ s ≥ t then Action.Reject else Action.Accept) := by
  induction ts with
  | nil => exact absurd hm (by simp)
  | cons p rest ih =>
    intro acc fin dec h
    obtain ⟨c', t'⟩ := p
    simp only [make_decisionLoop] at h
    cases hs : getSeverity c' d with
    | error e => rw [hs] at h; exact absurd h (by simp)
    | ok s =>
      rw [hs] at h
      simp only [] at h
      rcases List.mem_cons.mp hm with heq | hmem
      · obtain ⟨hc, ht⟩ := Prod.mk.injEq .. ▸ heq
        subst hc; subst ht
        have hrest : ∀ q ∈ rest, q.1 ≠ c := by
          intro q hq hqc
          have : c ∈ rest.map Prod.fst := hqc ▸ List.mem_map_of_mem Prod.fst hq
          exact (List.nodup_cons.mp hnd).1 this
        refine ⟨s, hs, ?_⟩
        rw [make_decisionLoop_dget_of_not_mem d rest c hrest _ _ _ h,
          dget_dinsert_self]
      · exact ih (List.nodup_cons.mp hnd).2 hmem _ _ _ h

/-- The `final_action` update of line 107-108 as a binary max on actions. -/
def maxAction (a b : Action) : Action :=
  if b.value > a.value then b else a

theorem make_decisionLoop_append_spec (d : DetectResult) (ts : List (Category × Int))
    (hnd : (ts.map Prod.fst).Nodup) :
    ∀ acc fin dec, (∀ p ∈ acc, ∀ q ∈ ts, p.1 ≠ q.1) →
      make_decisionLoop d ts acc fin = .ok dec →
      ∃ newl, dec.action_by_category = acc ++ newl ∧
        dec.suggested_action = newl.foldl (fun a p => maxAction a p.2) fin := by
  induction ts with
  | nil =>
    intro acc fin dec _ h
    simp [make_decisionLoop] at h
    subst h
    exact ⟨[], by simp⟩
  | cons p rest ih =>
    intro acc fin dec hdisj h
    obtain ⟨c', t'⟩ := p
    simp only [make_decisionLoop] at h
    cases hs : getSeverity c' d with
    | error e => rw [hs] at h; exact absurd h (by simp)
    | ok s =>
      rw [hs] at h
      simp only [] at h
      set action := if t' ≠ -1 ∧ s ≥ t' then Action.Reject else Action.Accept with haction
      have hfresh : ∀ p ∈ acc, p.1 ≠ c' := fun p hp => hdisj p hp (c', t') (by simp)
      rw [dinsert_eq_append c' action acc hfresh] at h
      have hdisj' : ∀ p ∈ acc ++ [(c', action)], ∀ q ∈ rest, p.1 ≠ q.1 := by
        intro p hp q hq
        rcases List.mem_append.mp hp with hpa | hpc
        · exact hdisj p hpa q (by simp [hq])
        · have hp1 : p.1 = c' := by
            rcases List.mem_singleton.mp hpc with rfl
            rfl
          rw [hp1]
          intro hcq
          have : c' ∈ rest.map Prod.fst := hcq ▸ List.mem_map_of_mem Prod.fst hq
          exact (List.nodup_cons.mp hnd).1 this
      obtain ⟨newl, habc, hsug⟩ := ih (List.nodup_cons.mp hnd).2 _ _ _ hdisj' h
      refine ⟨(c', action) :: newl, by simpa using habc, ?_⟩
      rw [hsug]
      simp [maxAction]

theorem foldl_maxAction_reject (fin : Action) (l : List (Category × Action)) :
    l.foldl (fun a p => maxAction a p.2) fin = Action.Reject ↔
      fin = Action.Reject ∨ Action.Reject ∈ l.map Prod.snd := by
  induction l generalizing fin with
  | nil => simp
  | cons p rest ih =>
    obtain ⟨c, a⟩ := p
    have hstep : maxAction fin a = Action.Reject ↔ fin = Action.Reject ∨ a = Action.Reject := by
      cases fin <;> cases a <;> simp [maxAction, Action.value]
    simp only [List.foldl_cons, ih, hstep, List.map_cons, List.mem_cons]
    tauto

theorem make_decisionLoop_error (d : DetectResult) (ts : List (Category × Int))
    (h : ∃ p ∈ ts, ∃ e, getSeverity p.1 d = .error e) :
    ∀ acc fin, ∃ p ∈ ts, ∃ e, getSeverity p.1 d = .error e ∧
      make_decisionLoop d ts acc fin = .error e := by
  induction ts with
  | nil => simp at h
  | cons p rest ih =>
    intro acc fin
    obtain ⟨c', t'⟩ := p
    cases hs : getSeverity c' d with
    | error e =>
      exact ⟨(c', t'), by simp, e, hs, by simp only [make_decisionLoop, hs]⟩
    | ok s =>
      have hrest : ∃ q ∈ rest, ∃ e, getSeverity q.1 d = .error e := by
        obtain ⟨q, hq, e, he⟩ := h
        rcases List.mem_cons.mp hq with rfl | hq'
        · rw [hs] at he; exact absurd he (by simp)
        · exact ⟨q, hq', e, he⟩
      obtain ⟨q, hq, e, he, hloop⟩ := ih hrest
        (dinsert c' (if t' ≠ -1 ∧ s ≥ t' then Action.Reject else Action.Accept) acc)
        (if (if t' ≠ -1 ∧ s ≥ t' then Action.Reject else Action.Accept).value > fin.value
          then (if t' ≠ -1 ∧ s ≥ t' then Action.Reject else Action.Accept) else fin)
      refine ⟨q, by simp [hq], e, he, ?_⟩
      simp only [make_decisionLoop, hs]
      exact hloop

theorem make_decisionLoop_entry_congr (d1 d2 : DetectResult) (ts : List (Category × Int))
    (h : ∀ p ∈ ts, severityEntry p.1 d1 = severityEntry p.1 d2) :
    ∀ acc fin dec, make_decisionLoop d1 ts acc fin = .ok dec ↔
      make_decisionLoop d2 ts acc fin = .ok dec := by
  induction ts with
  | nil => intro acc fin dec; rfl
  | cons p rest ih =>
    intro acc fin dec
    obtain ⟨c', t'⟩ := p
    have hent := h (c', t') (by simp)
    have hrest : ∀ q ∈ rest, severityEntry q.1 d1 = severityEntry q.1 d2 :=
      fun q hq => h q (by simp [hq])
    simp only [make_decisionLoop]
    cases hs1 : getSeverity c' d1 with
    | error e1 =>
      cases hs2 : getSeverity c' d2 with
      | error e2 => simp
      | ok s2 => simp [severityEntry, hs1, hs2] at hent
    | ok s1 =>
      cases hs2 : getSeverity c' d2 with
      | error e2 => simp [severityEntry, hs1, hs2] at hent
      | ok s2 =>
        have hss : s1 = s2 := by simpa [severityEntry, hs1, hs2] using hent
        subst hss
        exact ih hrest _ _ _

theorem findCategoryRec_error (c : Category) (l : List AnalysisRecord) (e : Err)
    (h : findCategoryRec c l = .error e) : e = .categoryNotFound c := by
  induction l with
  | nil => simpa [findCategoryRec] using h.symm
  | cons r rest ih =>
    by_cases hr : r.category = some c.catName
    · simp [findCategoryRec, hr] at h
    · exact ih (by simpa [findCategoryRec, hr] using h)

theorem getSeverity_of_error (c : Category) (d : DetectResult) (e2 : Err)
    (hg : get_detect_result_by_category c d = .error e2) :
    getSeverity c d = .error e2 := by
  unfold getSeverity
  rw [hg]

theorem getSeverity_of_ok (c : Category) (d : DetectResult) (r : AnalysisRecord)
    (hg : get_detect_result_by_category c d = .ok r) :
    getSeverity c d = match r.severity with
      | none => .error (.missingCategoryResult c)
      | some s => .ok s := by
  unfold getSeverity
  rw [hg]

theorem getSeverity_missing_iff (c : Category) (d : DetectResult) (e : Err)
    (h : getSeverity c d = .error e) :
    e = Err.missingCategoryResult c ↔
      ∃ r, get_detect_result_by_category c d = .ok r ∧ r.severity = none := by
  rcases hg : get_detect_result_by_category c d with e2 | r
  · rw [getSeverity_of_error c d e2 hg] at h
    have he2 : e2 = e := by simpa using h
    subst he2
    constructor
    · intro hme
      exfalso
      unfold get_detect_result_by_category at hg
      rcases hca : d.categoriesAnalysis with _ | l
      · rw [hca] at hg
        have hte : Err.typeError = e2 := by simpa using hg
        rw [← hte] at hme
        simp at hme
      · rw [hca] at hg
        rw [findCategoryRec_error c l e2 hg] at hme
        simp at hme
    · rintro ⟨r, hr, _⟩
      simp at hr
  · rw [getSeverity_of_ok c d r hg] at h
    rcases hsev : r.severity with _ | s
    · rw [hsev] at h
      have hme : Err.missingCategoryResult c = e := by simpa using h
      subst hme
      exact iff_of_true rfl ⟨r, rfl, hsev⟩
    · rw [hsev] at h
      exact absurd h (by simp)

/-! ## Claim theorems -/

/-- C1: for every thresholds dict with pairwise-distinct keys and every
detection result providing a severity for each of those categories,
`make_decision` succeeds and maps each configured category to Reject exactly
when its threshold is not -1 and its severity is at least the threshold, and
to Accept otherwise; in particular a threshold of -1 yields Accept for that
category whatever its severity. -/
theorem make_decision_per_category (d : DetectResult) (ts : List (Category × Int))
    (hnd : (ts.map Prod.fst).Nodup)
    (hcov : ∀ p ∈ ts, ∃ s, getSeverity p.1 d = .ok s) :
    ∃ dec, make_decision d ts = .ok dec ∧
      ∀ c t, (c, t) ∈ ts → ∃ s, getSeverity c d = .ok s ∧
        dget c dec.action_by_category
          = some (if t ≠ -1 ∧ s ≥ t then Action.Reject else Action.Accept) ∧
        (dget c dec.action_by_category = some Action.Reject ↔ (t ≠ -1 ∧ s ≥ t)) ∧
        (t = -1 → dget c dec.action_by_category = some Action.Accept) := by
  obtain ⟨dec, hdec⟩ := make_decisionLoop_cov_ok d ts hcov [] .Accept
  refine ⟨dec, hdec, ?_⟩
  intro c t hm
  obtain ⟨s, hs, hget⟩ := make_decisionLoop_mem_spec d ts hnd c t hm [] .Accept dec hdec
  refine ⟨s, hs, hget, ?_, ?_⟩
  · by_cases hcond : t ≠ -1 ∧ s ≥ t
    · simp [hget, hcond]
    · simp [hget, hcond]
  · intro ht
    rw [hget]
    simp [ht]

/-- Witness for C1 at a concrete input: threshold 2 on Hate with severity 3,
threshold -1 on SelfHarm with severity 999. -/
theorem make_decision_per_category_witness :
    ∃ dec, make_decision
        (DetectResult.mk (some [AnalysisRecord.mk (some "Hate") (some 3),
          AnalysisRecord.mk (some "SelfHarm") (some 999)]))
        [(Category.Hate, 2), (Category.SelfHarm, -1)] = .ok dec ∧
      ∀ c t, (c, t) ∈ [(Category.Hate, 2), (Category.SelfHarm, -1)] →
        ∃ s, getSeverity c (DetectResult.mk (some [AnalysisRecord.mk (some "Hate") (some 3),
            AnalysisRecord.mk (some "SelfHarm") (some 999)])) = .ok s ∧
          dget c dec.action_by_category
            = some (if t ≠ -1 ∧ s ≥ t then Action.Reject else Action.Accept) ∧
          (dget c dec.action_by_category = some Action.Reject ↔ (t ≠ -1 ∧ s ≥ t)) ∧
          (t = -1 → dget c dec.action_by_category = some Action.Accept) :=
  make_decision_per_category _ _ (by decide) (by
    intro p hp
    rcases List.mem_cons.mp hp with rfl | hp'
    · exact ⟨3, rfl⟩
    rcases List.mem_cons.mp hp' with rfl | hp''
    · exact ⟨999, rfl⟩
    exact absurd hp'' (List.not_mem_nil p))

/-- C2: for every Decision returned by `make_decision`, the suggested action
is the fold of the Accept-Reject maximum over the per-category actions, and
it is Reject exactly when some per-category action is Reject. -/
theorem make_decision_suggested_action (d : DetectResult) (ts : List (Category × Int))
    (hnd : (ts.map Prod.fst).Nodup) (dec : Decision)
    (h : make_decision d ts = .ok dec) :
    dec.suggested_action
        = dec.action_by_category.foldl (fun a p => maxAction a p.2) Action.Accept ∧
    (dec.suggested_action = Action.Reject ↔
      Action.Reject ∈ dec.action_by_category.map Prod.snd) := by
  obtain ⟨newl, habc, hsug⟩ := make_decisionLoop_append_spec d ts hnd [] .Accept dec (by simp) h
  simp only [List.nil_append] at habc
  subst habc
  refine ⟨hsug, ?_⟩
  rw [hsug, foldl_maxAction_reject]
  simp

/-- Witness for C2 at a concrete input: Violence severity 5 against
threshold 2 gives a Reject decision whose breakdown holds that Reject. -/
theorem make_decision_suggested_action_witness :
    (Decision.mk Action.Reject [(Category.Violence, Action.Reject)]).suggested_action
        = (Decision.mk Action.Reject
            [(Category.Violence, Action.Reject)]).action_by_category.foldl
            (fun a p => maxAction a p.2) Action.Accept ∧
    ((Decision.mk Action.Reject [(Category.Violence, Action.Reject)]).suggested_action
        = Action.Reject ↔
      Action.Reject ∈ (Decision.mk Action.Reject
        [(Category.Violence, Action.Reject)]).action_by_category.map Prod.snd) :=
  make_decision_suggested_action
    (DetectResult.mk (some [AnalysisRecord.mk (some "Violence") (some 5)]))
    [(Category.Violence, 2)] (by decide)
    (Decision.mk Action.Reject [(Category.Violence, Action.Reject)]) rfl

/-- Counterexample for C3: with thresholds {Hate: 2} and a detection result
whose categoriesAnalysis list is empty, Hate has no severity entry, yet
`make_decision` fails with the CategoryNotFound error (the
`ValueError("Invalid Category ...")` of line 94), which is not the
MissingCategoryResult error for any category. -/
theorem make_decision_missing_severity_cex :
    make_decision (DetectResult.mk (some [])) [(Category.Hate, 2)]
        = .error (Err.categoryNotFound Category.Hate) ∧
    severityEntry Category.Hate (DetectResult.mk (some [])) = none ∧
    ∀ c : Category, Err.categoryNotFound Category.Hate ≠ Err.missingCategoryResult c := by
  refine ⟨rfl, rfl, fun c => by simp⟩

/-- C3 (amended): for every thresholds map containing a category whose
severity lookup fails, `make_decision` fails rather than returning a
Decision, raising the severity-lookup error of one of the configured
categories; that error is MissingCategoryResult precisely when the analysis
record of that category is present but lacks a severity field (when the
record is absent altogether the error is CategoryNotFound instead). -/
theorem make_decision_error_on_missing (d : DetectResult) (ts : List (Category × Int))
    (h : ∃ p ∈ ts, ∃ e, getSeverity p.1 d = .error e) :
    ∃ p ∈ ts, ∃ e, getSeverity p.1 d = .error e ∧ make_decision d ts = .error e ∧
      (e = Err.missingCategoryResult p.1 ↔
        ∃ r, get_detect_result_by_category p.1 d = .ok r ∧ r.severity = none) := by
  obtain ⟨p, hp, e, he, hloop⟩ := make_decisionLoop_error d ts h [] .Accept
  exact ⟨p, hp, e, he, hloop, getSeverity_missing_iff p.1 d e he⟩

/-- Witness for C3 (amended) at a concrete input: the Hate record is present
without a severity field, so the run fails with MissingCategoryResult. -/
theorem make_decision_error_on_missing_witness :
    ∃ p ∈ [(Category.Hate, (2 : Int))], ∃ e,
      getSeverity p.1 (DetectResult.mk (some [AnalysisRecord.mk (some "Hate") none]))
          = .error e ∧
      make_decision (DetectResult.mk (some [AnalysisRecord.mk (some "Hate") none]))
          [(Category.Hate, 2)] = .error e ∧
      (e = Err.missingCategoryResult p.1 ↔
        ∃ r, get_detect_result_by_category p.1
            (DetectResult.mk (some [AnalysisRecord.mk (some "Hate") none])) = .ok r ∧
          r.severity = none) :=
  make_decision_error_on_missing
    (DetectResult.mk (some [AnalysisRecord.mk (some "Hate") none]))
    [(Category.Hate, 2)]
    ⟨(Category.Hate, 2), List.mem_singleton.mpr rfl,
      Err.missingCategoryResult Category.Hate, rfl⟩

theorem findCategoryRec_ok_of_exists (c : Category) (l : List AnalysisRecord)
    (hex : ∃ r ∈ l, r.category = some c.catName) :
    ∃ r ∈ l, r.category = some c.catName ∧ findCategoryRec c l = .ok r := by
  induction l with
  | nil => simp at hex
  | cons q rest ih =>
    by_cases hq : q.category = some c.catName
    · exact ⟨q, by simp, hq, by simp [findCategoryRec, hq]⟩
    · have hex' : ∃ r ∈ rest, r.category = some c.catName := by
        obtain ⟨r, hr, hrc⟩ := hex
        rcases List.mem_cons.mp hr with rfl | hr'
        · exact absurd hrc hq
        · exact ⟨r, hr', hrc⟩
      obtain ⟨r, hr, hrc, hfind⟩ := ih hex'
      exact ⟨r, by simp [hr], hrc, by simp [findCategoryRec, hq, hfind]⟩

theorem findCategoryRec_none (c : Category) (l : List AnalysisRecord)
    (hall : ∀ r ∈ l, r.category ≠ some c.catName) :
    findCategoryRec c l = .error (.categoryNotFound c) := by
  induction l with
  | nil => rfl
  | cons q rest ih =>
    have hq := hall q (by simp)
    simp only [findCategoryRec, hq, if_neg]
    exact ih fun r hr => hall r (by simp [hr])

theorem findCategoryRec_first (c : Category) (l1 l2 : List AnalysisRecord)
    (r : AnalysisRecord) (h1 : ∀ q ∈ l1, q.category ≠ some c.catName)
    (h2 : r.category = some c.catName) :
    findCategoryRec c (l1 ++ r :: l2) = .ok r := by
  induction l1 with
  | nil => simp [findCategoryRec, h2]
  | cons q rest ih =>
    have hq : q.category ≠ some c.catName := h1 q (by simp)
    simp only [List.cons_append, findCategoryRec, hq, if_neg]
    exact ih fun q' hq' => h1 q' (by simp [hq'])

/-- C4: for a raw provider response whose categoriesAnalysis key holds the
list l, `get_detect_result_by_category` returns an analysis record of l whose
category field is the target category name whenever one exists, and fails
with the CategoryNotFound error (the `ValueError("Invalid Category ...")` of
line 94) when no record of l carries that name. -/
theorem get_detect_result_spec (c : Category) (d : DetectResult) (l : List AnalysisRecord)
    (hl : d.categoriesAnalysis = some l) :
    ((∃ r ∈ l, r.category = some c.catName) →
      ∃ r ∈ l, r.category = some c.catName ∧
        get_detect_result_by_category c d = .ok r) ∧
    ((∀ r ∈ l, r.category ≠ some c.catName) →
      get_detect_result_by_category c d = .error (.categoryNotFound c)) := by
  have hred : get_detect_result_by_category c d = findCategoryRec c l := by
    unfold get_detect_result_by_category
    rw [hl]
  constructor
  · intro hex
    obtain ⟨r, hr, hrc, hfind⟩ := findCategoryRec_ok_of_exists c l hex
    exact ⟨r, hr, hrc, by rw [hred, hfind]⟩
  · intro hall
    rw [hred]
    exact findCategoryRec_none c l hall

/-- Witness for C4 at a concrete input: a response holding a Sexual record is
resolved to that record. -/
theorem get_detect_result_spec_witness :
    ∃ r ∈ [AnalysisRecord.mk (some "Sexual") (some 1)],
      r.category = some Category.Sexual.catName ∧
      get_detect_result_by_category Category.Sexual
          (DetectResult.mk (some [AnalysisRecord.mk (some "Sexual") (some 1)])) = .ok r :=
  (get_detect_result_spec Category.Sexual
      (DetectResult.mk (some [AnalysisRecord.mk (some "Sexual") (some 1)]))
      [AnalysisRecord.mk (some "Sexual") (some 1)] rfl).1
    ⟨AnalysisRecord.mk (some "Sexual") (some 1), List.mem_singleton.mpr rfl, rfl⟩

/-- C5: with an empty thresholds dict, `make_decision` returns the Accept
decision with an empty per-category breakdown, for every detection result,
raising no error. -/
theorem make_decision_empty_thresholds (d : DetectResult) :
    make_decision d [] = .ok (Decision.mk Action.Accept []) := rfl

/-- C6: two detection results that agree on the severity entries of every
category configured in the thresholds dict yield the same Decisions from
`make_decision`; entries for other categories are never consulted. -/
theorem make_decision_thresholds_only (d1 d2 : DetectResult) (ts : List (Category × Int))
    (h : ∀ p ∈ ts, severityEntry p.1 d1 = severityEntry p.1 d2) :
    ∀ dec, make_decision d1 ts = .ok dec ↔ make_decision d2 ts = .ok dec :=
  fun dec => make_decisionLoop_entry_congr d1 d2 ts h [] .Accept dec

/-- Witness for C6 at a concrete input: adding a Violence record to a
response does not change the decision when only Hate is thresholded. -/
theorem make_decision_thresholds_only_witness :
    make_decision (DetectResult.mk (some [AnalysisRecord.mk (some "Hate") (some 1)]))
        [(Category.Hate, 2)]
          = .ok (Decision.mk Action.Accept [(Category.Hate, Action.Accept)]) ↔
      make_decision (DetectResult.mk (some [AnalysisRecord.mk (some "Hate") (some 1),
        AnalysisRecord.mk (some "Violence") (some 5)])) [(Category.Hate, 2)]
          = .ok (Decision.mk Action.Accept [(Category.Hate, Action.Accept)]) :=
  make_decision_thresholds_only
    (DetectResult.mk (some [AnalysisRecord.mk (some "Hate") (some 1)]))
    (DetectResult.mk (some [AnalysisRecord.mk (some "Hate") (some 1),
      AnalysisRecord.mk (some "Violence") (some 5)]))
    [(Category.Hate, 2)]
    (by
      intro p hp
      rcases List.mem_singleton.mp hp with rfl
      rfl)
    (Decision.mk Action.Accept [(Category.Hate, Action.Accept)])

/-- C7: the `make_decision` method is pure and deterministic: its result is a
function of the detection result and thresholds alone (any two instance
states give the same result) and the instance state is returned unchanged. -/
theorem make_decision_pure (s1 s2 : ContentSafety) (d : DetectResult)
    (ts : List (Category × Int)) :
    (s1.make_decisionM d ts).1 = make_decision d ts ∧
    (s1.make_decisionM d ts).2 = s1 ∧
    (s1.make_decisionM d ts).1 = (s2.make_decisionM d ts).1 :=
  ⟨rfl, rfl, rfl⟩

/-- C8: `build_request_body` wraps image content as
obj [image: obj [content: str]] and text content as obj [text: str]. -/
theorem build_request_body_spec (self : ContentSafety) (content : String) :
    self.build_request_body MediaType.Image content
        = Json.obj [("image", Json.obj [("content", Json.str content)])] ∧
    self.build_request_body MediaType.Text content
        = Json.obj [("text", Json.str content)] :=
  ⟨rfl, rfl⟩

/-- C9: `detect` returns the parsed body unchanged on HTTP status 200, and on
any other status raises DetectionError carrying exactly the code and message
fields of the error object of the response body. -/
theorem detect_spec (self : ContentSafety) (mt : MediaType) (content : String)
    (resp : HttpResponse) :
    (resp.status_code = 200 → self.detect mt content resp = .ok resp.body) ∧
    (∀ code message : Json, resp.status_code ≠ 200 →
      (resp.body.getKey "error").bind (fun j => j.getKey "code") = some code →
      (resp.body.getKey "error").bind (fun j => j.getKey "message") = some message →
      self.detect mt content resp = .error (.detectionError code message)) := by
  constructor
  · intro h200
    unfold ContentSafety.detect
    simp [h200]
  · intro code message hne hcode hmsg
    unfold ContentSafety.detect
    simp [hne, hcode, hmsg]

/-- Witness for C9 at a concrete input: a 403 response with an error object
surfaces its code and message in the DetectionError. -/
theorem detect_spec_witness :
    ContentSafety.detect (ContentSafety.mk "https://example" "key" "2024-09-01")
        MediaType.Image "abc"
        (HttpResponse.mk 403 (Json.obj [("error", Json.obj
          [("code", Json.str "Forbidden"), ("message", Json.str "denied")])]))
        = .error (.detectionError (Json.str "Forbidden") (Json.str "denied")) :=
  (detect_spec (ContentSafety.mk "https://example" "key" "2024-09-01")
      MediaType.Image "abc"
      (HttpResponse.mk 403 (Json.obj [("error", Json.obj
        [("code", Json.str "Forbidden"), ("message", Json.str "denied")])]))).2
    (Json.str "Forbidden") (Json.str "denied") (by decide) rfl rfl

/-- C10: when several analysis records carry the target category name,
`get_detect_result_by_category` returns the first one in list order. -/
theorem get_detect_result_first_match (c : Category) (l1 l2 : List AnalysisRecord)
    (r : AnalysisRecord) (h1 : ∀ q ∈ l1, q.category ≠ some c.catName)
    (h2 : r.category = some c.catName) :
    get_detect_result_by_category c (DetectResult.mk (some (l1 ++ r :: l2))) = .ok r :=
  findCategoryRec_first c l1 l2 r h1 h2

/-- Witness for C10 at a concrete input: with two Violence records in the
list, the first one (severity 2, not 7) is returned. -/
theorem get_detect_result_first_match_witness :
    get_detect_result_by_category Category.Violence
        (DetectResult.mk (some ([AnalysisRecord.mk (some "Hate") (some 0)] ++
          AnalysisRecord.mk (some "Violence") (some 2) ::
            [AnalysisRecord.mk (some "Violence") (some 7)])))
        = .ok (AnalysisRecord.mk (some "Violence") (some 2)) :=
  get_detect_result_first_match Category.Violence
    [AnalysisRecord.mk (some "Hate") (some 0)]
    [AnalysisRecord.mk (some "Violence") (some 7)]
    (AnalysisRecord.mk (some "Violence") (some 2))
    (by
      intro q hq
      rcases List.mem_singleton.mp hq with rfl
      decide)
    rfl

end AppPy
